import Mathlib

/-!
# Verification of the announcement scheduling and playback queue engine

Shallow embedding of the schedule-normalization, display-selection,
playback-ledger, threshold-detection and global-audio-queue code of the
repository, together with theorems settling the specification claims.

Conventions of the embedding:
* JavaScript wall-clock minutes are modelled as `Int`.
* A JavaScript number that may be `NaN` is modelled as `Option Int`
  (`none` = `NaN`); an arrival-instant field that may additionally be
  `null` is modelled by the three-way type `Jsv`.
* Optional string fields (`entry.arrivalTime`, `entry.finishTime`,
  `entry.order`) are `Option String`, `none` standing for a missing or
  empty (falsy) value.
* `Number(s)` is modelled on the input space actually reachable from the
  schedule format: the empty string maps to `0`, a string of decimal
  digits to its value, anything else to `NaN`.
-/

/-- A JavaScript numeric value that may also be `null` (the shape of the
`arrivalDatetime` field produced by `normalizeEntries`). -/
inductive Jsv where
  | null : Jsv
  | nan : Jsv
  | num : Int → Jsv
deriving DecidableEq

/-- JavaScript truthiness of a `Jsv`: `null`, `NaN` and `0` are falsy. -/
def Jsv.falsy : Jsv → Bool
  | .null => true
  | .nan => true
  | .num n => n == 0

/-- Split a character list at every occurrence of `c` (the semantics of
`s.split(c)`; implemented over `List Char` so the kernel can evaluate it). -/
def splitOnChar (c : Char) : List Char → List (List Char)
  | [] => [[]]
  | x :: xs =>
    let r := splitOnChar c xs
    if x = c then [] :: r
    else match r with
      | [] => [[x]]
      | h :: t => (x :: h) :: t

/-- Decimal value of a digit run. -/
def digitsVal (cs : List Char) : Nat :=
  cs.foldl (fun n c => n * 10 + (c.toNat - 48)) 0

/-- `Number(s)` for the strings reachable from the schedule data: the empty
string is `0`, a digit string is its decimal value, anything else is `NaN`
(`none`). -/
def jsNumber (cs : List Char) : Option Int :=
  if cs.isEmpty then some 0
  else if cs.all Char.isDigit then some (Int.ofNat (digitsVal cs))
  else none

/-- `const [h, m] = s.split(':').map(Number)` followed by `h * 60 + m`:
minutes since midnight, `none` when the result is `NaN` (either component
unparseable, or no `:` so that `m` is `undefined`). -/
def jsTimeToMinutes (s : String) : Option Int :=
  let parts := splitOnChar ':' s.data
  let hPart : Option Int := match parts with
    | [] => none
    | p :: _ => jsNumber p
  let mPart : Option Int := match parts with
    | _ :: p :: _ => jsNumber p
    | _ => none
  match hPart, mPart with
  | some h, some m => some (h * 60 + m)
  | _, _ => none

/-- A raw schedule row (the fields consulted by the engine core). -/
structure ScheduleEntry where
  id : Option String
  arrivalTime : Option String
  finishTime : Option String
  order : Option String
  supplierName : String
deriving DecidableEq

/-- A schedule row plus the derived `arrivalDatetime` field. -/
structure NormalizedEntry where
  entry : ScheduleEntry
  arrivalDatetime : Jsv
deriving DecidableEq

/-- The finish minute used by the day-roll test of `normalizeEntries`:
the parsed finish time when present, else arrival + 5 (`none` = `NaN`). -/
def finishOrDefault (e : ScheduleEntry) (arrival : Int) : Option Int :=
  match e.finishTime with
  | some f => jsTimeToMinutes f
  | none => some (arrival + 5)

/-- The body of the `map` inside `normalizeEntries`: parse the arrival
time, compute the finish-or-default minute, and project to the next day
(`+ 1440`) when the finish minute is strictly before the current minute.
A missing arrival yields `null`; an unparseable one propagates `NaN`. -/
def normalizeEntry (currentTimeMinutes : Int) (e : ScheduleEntry) : NormalizedEntry :=
  match e.arrivalTime with
  | none => ⟨e, Jsv.null⟩
  | some s =>
    match jsTimeToMinutes s with
    | none => ⟨e, Jsv.nan⟩
    | some arrivalTime =>
      let isNextDay : Bool :=
        match finishOrDefault e arrivalTime with
        | some ft => decide (ft < currentTimeMinutes)
        | none => false
      ⟨e, Jsv.num (if isNextDay then arrivalTime + 24 * 60 else arrivalTime)⟩

/-- `normalizeEntries`: map every raw entry and keep those whose
`arrivalDatetime !== null` (strict inequality: `NaN` survives). -/
def normalizeEntries (entries : List ScheduleEntry) (currentTimeMinutes : Int) :
    List NormalizedEntry :=
  (entries.map (normalizeEntry currentTimeMinutes)).filter
    (fun ne => decide (ne.arrivalDatetime ≠ Jsv.null))

/-- `parseInt(s, 10)` on the strings reachable from the `order` field:
value of the leading digit run, `NaN` (`none`) when there is none. -/
def parseIntJs (s : String) : Option Int :=
  let ds := s.data.takeWhile Char.isDigit
  if ds.isEmpty then none
  else some (Int.ofNat (digitsVal ds))

/-- `parseInt(entry.order || '0', 10)` used as the tie-break key. -/
def orderVal (e : NormalizedEntry) : Option Int :=
  parseIntJs (match e.entry.order with | some s => s | none => "0")

/-- The comparator of `sortEntries`: zero when either arrival instant is
`null`, else the arrival difference, else the parsed `order` difference.
A `NaN` comparator value (a `NaN` arrival instant or an unparseable
`order`) is treated as zero, which is how the sort consumes it. -/
def compareEntries (a b : NormalizedEntry) : Int :=
  match a.arrivalDatetime, b.arrivalDatetime with
  | Jsv.null, _ => 0
  | _, Jsv.null => 0
  | Jsv.nan, _ => 0
  | _, Jsv.nan => 0
  | Jsv.num x, Jsv.num y =>
    if x ≠ y then x - y
    else
      match orderVal a, orderVal b with
      | some u, some v => u - v
      | _, _ => 0

/-- `sortEntries`: stable sort by the comparator above. -/
def sortEntries (entries : List NormalizedEntry) : List NormalizedEntry :=
  List.insertionSort (fun a b => compareEntries a b ≤ 0) entries

/-- `pickDisplayEntries`: keep entries with a truthy `arrivalDatetime`
already inside the look-ahead window, and truncate to the display count
(`limit`, 2 at the call sites). -/
def pickDisplayEntries (entries : List NormalizedEntry) (currentTimeMinutes : Int)
    (beforeMinutes : Int) (limit : Nat) : List NormalizedEntry :=
  (entries.filter (fun e =>
    match e.arrivalDatetime with
    | Jsv.num n =>
      if n == 0 then false
      else decide (currentTimeMinutes ≥ n - beforeMinutes)
    | _ => false)).take limit

/-! ## Playback Ledger (`audioPlaybackManager.ts`) -/

/-- A persisted playback record. `playedAt` is an ISO timestamp in the
source; only its calendar day is ever consulted (`toDateString()`
comparison), so it is modelled by the day number `playedDay`. -/
structure PlaybackRecord where
  entryId : String
  timingMinutes : Int
  playedDay : Nat
  arrivalTime : String
deriving DecidableEq

/-- `Math.min(...l)` for a list of numbers (`none` on the empty list). -/
def listMin : List Int → Option Int
  | [] => none
  | t :: ts =>
    match listMin ts with
    | none => some t
    | some m => some (min t m)

/-- `records.filter(r => r.entryId === entryId)`. -/
def entryRecordsOf (records : List PlaybackRecord) (entryId : String) :
    List PlaybackRecord :=
  records.filter (fun r => r.entryId == entryId)

/-- `entryRecords.filter(record => playedDate.toDateString() === today)`. -/
def todayRecordsOf (records : List PlaybackRecord) (today : Nat) (entryId : String) :
    List PlaybackRecord :=
  (entryRecordsOf records entryId).filter (fun r => r.playedDay == today)

/-- `hasBeenPlayed`: false when the entry has no record, or none from
today; otherwise compare against the smallest timing recorded today
(a smaller timing marks every larger timing as played too). -/
def hasBeenPlayed (records : List PlaybackRecord) (today : Nat) (entryId : String)
    (timingMinutes : Int) : Bool :=
  let entryRecords := entryRecordsOf records entryId
  if entryRecords.isEmpty then false
  else
    let todayRecords := todayRecordsOf records today entryId
    if todayRecords.isEmpty then false
    else
      match listMin (todayRecords.map (fun r => r.timingMinutes)) with
      | none => false
      | some minPlayedTiming => decide (timingMinutes ≥ minPlayedTiming)

/-- The timing stored by `savePlaybackRecord` when the entry already has
records: `min(Math.min(...existing timings), record.timingMinutes)`. -/
def savedTiming (records : List PlaybackRecord) (record : PlaybackRecord) : Int :=
  match listMin ((entryRecordsOf records record.entryId).map (fun r => r.timingMinutes)) with
  | none => record.timingMinutes
  | some lastTiming => min lastTiming record.timingMinutes

/-- `savePlaybackRecord`: first record for the entry is appended as-is;
otherwise every record of the entry is replaced by one record carrying
the minimum timing. The storage-quota fallback branch of the source
(kept only when the serialized blob exceeds 4 MB) concerns the physical
store, not the per-entry record, and is outside this embedding. -/
def savePlaybackRecord (records : List PlaybackRecord) (record : PlaybackRecord) :
    List PlaybackRecord :=
  let entryRecords := entryRecordsOf records record.entryId
  if entryRecords.isEmpty then records ++ [record]
  else
    let filteredRecords := records.filter (fun r => !(r.entryId == record.entryId))
    filteredRecords ++ [⟨record.entryId, savedTiming records record, record.playedDay,
      record.arrivalTime⟩]

/-! ## Threshold Detector (`useAudioQueue.ts`, `enqueueForDisplay`) -/

/-- The finish minute computed inside `enqueueForDisplay`: parsed finish
time rolled to the next day when already past, else arrival + 5.
`none` = `NaN` (unparseable finish string). -/
def rolledFinish (currentTimeMinutes : Int) (e : ScheduleEntry) (arrivalTime : Int) :
    Option Int :=
  match e.finishTime with
  | some f =>
    match jsTimeToMinutes f with
    | some fm => some (if fm < currentTimeMinutes then fm + 24 * 60 else fm)
    | none => none
  | none => some (arrivalTime + 5)

/-- `currentTimeMinutes > finishTime` under JavaScript semantics: any
comparison with `NaN` is false. -/
def jsGTO (c : Int) : Option Int → Bool
  | some x => decide (c > x)
  | none => false

/-- The due set: configured timings whose announcement instant
`arrivalTime - timing` has been reached. -/
def dueTimings (speechTimings : List Int) (currentTimeMinutes arrivalTime : Int) :
    List Int :=
  speechTimings.filter (fun t => decide (currentTimeMinutes ≥ arrivalTime - t))

/-- `[...pastTimings].sort((a, b) => a - b)`: ascending numeric sort. -/
def sortTimings (l : List Int) : List Int :=
  List.insertionSort (fun a b => a ≤ b) l

/-- The scan loop of `enqueueForDisplay`: first timing in the list not yet
satisfied by the ledger, `none` when every timing is satisfied. -/
def firstUnplayed (records : List PlaybackRecord) (today : Nat) (entryId : String) :
    List Int → Option Int
  | [] => none
  | t :: ts =>
    if hasBeenPlayed records today entryId t then firstUnplayed records today entryId ts
    else some t

/-- The per-entry body of `enqueueForDisplay`: skip entries with a falsy
id, arrival time or arrival instant; skip entries whose finish minute has
passed; compute the due timings; sort them ascending and return the first
one the ledger does not satisfy. The result is the entry's sole candidate
timing for this cycle (`none` = no candidate). -/
def detectCandidate (records : List PlaybackRecord) (today : Nat)
    (speechTimings : List Int) (currentTimeMinutes : Int) (e : NormalizedEntry) :
    Option Int :=
  match e.entry.id, e.entry.arrivalTime, e.arrivalDatetime with
  | some entryId, some _, Jsv.num arrivalTime =>
    if arrivalTime == 0 then none
    else if jsGTO currentTimeMinutes (rolledFinish currentTimeMinutes e.entry arrivalTime) then
      none
    else
      let pastTimings := dueTimings speechTimings currentTimeMinutes arrivalTime
      if pastTimings.isEmpty then none
      else firstUnplayed records today entryId (sortTimings pastTimings)
  | _, _, _ => none

/-! ## Global Announcement Queue and Playback Engine
(`audioPlaybackState` variant with the global queue) -/

/-- An item of the global audio queue. `arrivalDatetime` is an optional
number in the source (`arrivalDatetime?: number`). -/
structure QueueItem where
  entryId : String
  supplierName : String
  arrivalTime : String
  arrivalDatetime : Option Int
  monitorId : String
  monitorTitle : String
  isMainEntry : Bool
  timing : Int
  speechText : String
  speechLang : String
  isLeftSide : Option Bool
deriving DecidableEq

/-- `item.arrivalDatetime || 0`: a falsy value (`undefined`, `0`, `NaN`)
becomes `0`. -/
def jsOr0 : Option Int → Int
  | none => 0
  | some n => n

/-- The third-level key of the priority: the left/right flag when present,
else `monitorId === "1" ? 0 : 1`. -/
def sideBit (item : QueueItem) : Int :=
  match item.isLeftSide with
  | some b => if b then 0 else 1
  | none => if item.monitorId == "1" then 0 else 1

/-- `getGlobalAudioPriority`: weighted sum of arrival instant, slot
(main = 0 / secondary = 1) and side. -/
def getGlobalAudioPriority (item : QueueItem) : Int :=
  jsOr0 item.arrivalDatetime * 1000000
    + (if item.isMainEntry then 0 else 1) * 10000
    + sideBit item * 100

/-- The module-level mutable state of the engine: the queue, the two
in-memory deduplication sets (`playedEntries`, `processedEntries`) and
the persisted ledger written through `savePlaybackRecord`. -/
structure EngineState where
  queue : List QueueItem
  playedEntries : List String
  processedEntries : List String
  ledger : List PlaybackRecord
deriving DecidableEq

/-- `addToGlobalAudioQueue`: drop the item when its entry is already
played, already processed, or already queued; otherwise append it and
mark it processed. -/
def addToGlobalAudioQueue (st : EngineState) (item : QueueItem) : EngineState :=
  if st.playedEntries.contains item.entryId then st
  else if st.processedEntries.contains item.entryId then st
  else if (st.queue.find? (fun q => q.entryId == item.entryId)).isSome then st
  else ⟨st.queue ++ [item], st.playedEntries, item.entryId :: st.processedEntries, st.ledger⟩

/-- `startPlayback`: record the entry as played (before any audio call
settles) and mark the playing state. Only the set mutation is relevant
to the control flow modelled here. -/
def startPlaybackEff (st : EngineState) (item : QueueItem) : EngineState :=
  ⟨st.queue, item.entryId :: st.playedEntries, st.processedEntries, st.ledger⟩

/-- `playGlobalAudio` for one item: `startPlayback`, then the external
chime/speech/chime sequence, modelled by its outcome `audioOk`. On
success a ledger record with the played timing is saved; on failure the
`catch` branch writes nothing. `processedEntries` is deliberately left
untouched in both branches (source comment: never removed, to prevent
duplicate playback). -/
def playGlobalAudio (st : EngineState) (item : QueueItem) (today : Nat)
    (audioOk : Bool) : EngineState :=
  let st1 := startPlaybackEff st item
  if audioOk then
    ⟨st1.queue, st1.playedEntries, st1.processedEntries,
      savePlaybackRecord st1.ledger ⟨item.entryId, item.timing, today, item.arrivalTime⟩⟩
  else st1

/-- The drain loop of `processGlobalAudioQueue`: shift items one at a
time, skip entries already played, play the rest serially. `audioOutcome`
gives the external audio result for each entry id. -/
def drainQueue (today : Nat) (audioOutcome : String → Bool) :
    List QueueItem → EngineState → EngineState
  | [], st => st
  | item :: rest, st =>
    if st.playedEntries.contains item.entryId then drainQueue today audioOutcome rest st
    else drainQueue today audioOutcome rest (playGlobalAudio st item today (audioOutcome item.entryId))

/-- The sort pass of `processGlobalAudioQueue` (stable, by priority). -/
def sortQueue (q : List QueueItem) : List QueueItem :=
  List.insertionSort (fun a b => getGlobalAudioPriority a ≤ getGlobalAudioPriority b) q

/-- `processGlobalAudioQueue`: sort the queue by global priority, then
drain it serially; the queue is emptied by the successive shifts. -/
def processGlobalAudioQueue (today : Nat) (audioOutcome : String → Bool)
    (st : EngineState) : EngineState :=
  drainQueue today audioOutcome (sortQueue st.queue)
    ⟨[], st.playedEntries, st.processedEntries, st.ledger⟩

/-! ## Read side of the persisted ledger at the JavaScript value level

For the corruption claim the read path must be modelled below the typed
`PlaybackRecord` list: the source casts whatever `JSON.parse` returned.
`JsonVal` is a parsed JSON value; the stored blob is modelled by the
outcome of `JSON.parse` on it (`Except.error` = parse exception). -/

inductive JsonVal where
  | jnull : JsonVal
  | jbool : Bool → JsonVal
  | jnum : Int → JsonVal
  | jstr : String → JsonVal
  | jarr : List JsonVal → JsonVal
  | jobj : List (String × JsonVal) → JsonVal

/-- `getPlaybackRecords`: an absent/empty blob yields `[]`, a parse
exception is caught and yields `[]`, and any successfully parsed value is
returned as-is (the cast performs no validation). -/
def getPlaybackRecordsJs (store : Option (Except Unit JsonVal)) : JsonVal :=
  match store with
  | none => JsonVal.jarr []
  | some (Except.error _) => JsonVal.jarr []
  | some (Except.ok v) => v

/-- Property read `v[name]`: throws a TypeError on `null` (and
`undefined`), yields the field (or `undefined`, i.e. `none`) on an
object, and `undefined` on other primitives. -/
def jsGetField (v : JsonVal) (name : String) : Except Unit (Option JsonVal) :=
  match v with
  | JsonVal.jnull => Except.error ()
  | JsonVal.jobj fields => Except.ok ((fields.find? (fun f => f.1 == name)).map (fun f => f.2))
  | _ => Except.ok none

/-- `l.filter(record => record.entryId === entryId)` over raw JSON
values: the property read may throw; `===` against a string is true only
for an identical string. -/
def filterByEntryId (entryId : String) : List JsonVal → Except Unit (List JsonVal)
  | [] => Except.ok []
  | r :: rs => do
    let f ← jsGetField r "entryId"
    let rest ← filterByEntryId entryId rs
    let keep : Bool := match f with
      | some (JsonVal.jstr s) => s == entryId
      | _ => false
    pure (if keep then r :: rest else rest)

/-- `l.filter(record => new Date(record.playedAt).toDateString() === today)`:
`dateString` abstracts `new Date(·).toDateString()` (total: date
construction never throws, invalid inputs give "Invalid Date"). -/
def filterByToday (dateString : Option JsonVal → String) (today : String) :
    List JsonVal → Except Unit (List JsonVal)
  | [] => Except.ok []
  | r :: rs => do
    let f ← jsGetField r "playedAt"
    let rest ← filterByToday dateString today rs
    pure (if dateString f == today then r :: rest else rest)

/-- `ToNumber` coercion applied by `Math.min` to each argument
(`undefined` is `NaN`; objects and arrays are modelled as `NaN`, which is
exact for the object records that can appear here). -/
def jsToNum : Option JsonVal → Option Int
  | none => none
  | some JsonVal.jnull => some 0
  | some (JsonVal.jbool b) => some (if b then 1 else 0)
  | some (JsonVal.jnum n) => some n
  | some (JsonVal.jstr s) => jsNumber s.data
  | some (JsonVal.jarr _) => none
  | some (JsonVal.jobj _) => none

/-- `Math.min(...)` over coerced values: `NaN` if any argument is. -/
def jsMin : List (Option Int) → Option Int
  | [] => none
  | v :: vs =>
    match v, jsMin vs with
    | some n, some m => some (min n m)
    | some n, none => if vs.isEmpty then some n else none
    | none, _ => none

/-- `hasBeenPlayed` on the raw stored blob: every JavaScript step that
can throw is in the `Except` monad. `timing >= m` against `NaN` is
false. -/
def hasBeenPlayedJs (store : Option (Except Unit JsonVal))
    (dateString : Option JsonVal → String) (today : String) (entryId : String)
    (timingMinutes : Int) : Except Unit Bool := do
  let records := getPlaybackRecordsJs store
  let entryRecords ←
    match records with
    | JsonVal.jarr l => filterByEntryId entryId l
    | _ => Except.error ()
  if entryRecords.isEmpty then pure false
  else do
    let todayRecords ← filterByToday dateString today entryRecords
    if todayRecords.isEmpty then pure false
    else do
      let timings ← todayRecords.mapM (fun r => jsGetField r "timingMinutes")
      match jsMin (timings.map jsToNum) with
      | some m => pure (decide (timingMinutes ≥ m))
      | none => pure false


/-- The timing carried by the single record an entry owns after
`savePlaybackRecord` (both branches of the source unified). -/
def savedTimingFull (records : List PlaybackRecord) (record : PlaybackRecord) : Int :=
  if (entryRecordsOf records record.entryId).isEmpty then record.timingMinutes
  else savedTiming records record

/-! ## Concrete inputs used by the witnesses and counterexamples -/

/-- An entry arriving at minute 600 with no finish time. -/
def eDet : NormalizedEntry := ⟨⟨some "e1", some "10:00", none, none, "S"⟩, Jsv.num 600⟩

/-- An in-progress entry: arrival 10:00, finish 10:30. -/
def eProg : ScheduleEntry := ⟨some "p", some "10:00", some "10:30", none, "S"⟩

/-- An entry whose arrival time is nonempty but unparseable. -/
def eBad : ScheduleEntry := ⟨some "b", some "xx", none, none, "S"⟩

/-- An entry with a missing arrival time. -/
def eNoArr : ScheduleEntry := ⟨some "n", none, none, none, "S"⟩

/-- The day-roll example entry: arrival 00:10, finish 00:15. -/
def eRoll : ScheduleEntry := ⟨some "r", some "00:10", some "00:15", none, "S"⟩

/-- A ledger holding one record for entry `e1`: timing 0, played on day 5. -/
def recsW : List PlaybackRecord := [⟨"e1", 0, 5, "08:00"⟩]

/-- Queue item from monitor "2", main slot, no left/right flag. -/
def itemA : QueueItem := ⟨"a", "SA", "10:00", some 600, "2", "M2", true, 0, "t", "ja-JP", none⟩

/-- Queue item from monitor "3" agreeing with `itemA` on arrival and slot. -/
def itemB : QueueItem := ⟨"b", "SB", "10:00", some 600, "3", "M3", true, 0, "t", "ja-JP", none⟩

/-- The engine state at module load. -/
def st0 : EngineState := ⟨[], [], [], []⟩

/-- The state after enqueueing `itemA` and processing the queue with the
audio capability failing. -/
def stFail : EngineState :=
  processGlobalAudioQueue 0 (fun _ => false) (addToGlobalAudioQueue st0 itemA)

/-! ## Helper lemmas -/

theorem listMin_eq_none {l : List Int} : listMin l = none ↔ l = [] := by
  cases l with
  | nil => simp [listMin]
  | cons t ts =>
    simp only [listMin]
    cases listMin ts <;> simp

theorem listMin_mem : ∀ {l : List Int} {m : Int}, listMin l = some m → m ∈ l := by
  intro l
  induction l with
  | nil => intro m h; simp [listMin] at h
  | cons t ts ih =>
    intro m h
    simp only [listMin] at h
    cases hts : listMin ts with
    | none =>
      rw [hts] at h
      simp at h
      simp [h]
    | some m' =>
      rw [hts] at h
      simp at h
      rcases min_cases t m' with ⟨hmin, _⟩ | ⟨hmin, _⟩
      · rw [hmin] at h
        simp [h]
      · rw [hmin] at h
        right
        rw [← h]
        exact ih hts

theorem listMin_le : ∀ {l : List Int} {m : Int}, listMin l = some m →
    ∀ x ∈ l, m ≤ x := by
  intro l
  induction l with
  | nil => intro m h; simp [listMin] at h
  | cons t ts ih =>
    intro m h
    simp only [listMin] at h
    cases hts : listMin ts with
    | none =>
      rw [hts] at h
      simp at h
      have hnil : ts = [] := listMin_eq_none.mp hts
      subst hnil
      simp [← h]
    | some m' =>
      rw [hts] at h
      simp at h
      intro x hx
      rcases List.mem_cons.mp hx with hx | hx
      · subst hx
        rw [← h]
        exact min_le_left _ _
      · calc m ≤ m' := by rw [← h]; exact min_le_right _ _
          _ ≤ x := ih hts x hx

theorem listMin_isSome {l : List Int} (h : l ≠ []) : ∃ m, listMin l = some m := by
  cases hm : listMin l with
  | none => exact absurd (listMin_eq_none.mp hm) h
  | some m => exact ⟨m, rfl⟩

theorem filter_not_pred_self {α : Type} (p : α → Bool) (l : List α) :
    (l.filter fun a => !(p a)).filter p = [] := by
  induction l with
  | nil => rfl
  | cons a l ih =>
    cases h : p a <;> simp [List.filter, h, ih]

theorem jsNumber_nonneg {cs : List Char} {n : Int} (h : jsNumber cs = some n) : 0 ≤ n := by
  unfold jsNumber at h
  split at h
  · simp at h
    omega
  · split at h
    · simp at h
      rw [← h]
      exact Int.ofNat_nonneg _
    · simp at h

theorem jsTimeToMinutes_nonneg {s : String} {a : Int}
    (h : jsTimeToMinutes s = some a) : 0 ≤ a := by
  simp only [jsTimeToMinutes] at h
  rcases hsp : splitOnChar ':' s.data with _ | ⟨p, ps⟩
  · rw [hsp] at h
    simp at h
  · rcases ps with _ | ⟨q, rest⟩
    · rw [hsp] at h
      dsimp only at h
      cases hp : jsNumber p <;> rw [hp] at h <;> simp at h
    · rw [hsp] at h
      dsimp only at h
      cases hp : jsNumber p with
      | none => rw [hp] at h; simp at h
      | some hv =>
        cases hq : jsNumber q with
        | none => rw [hp, hq] at h; simp at h
        | some mv =>
          rw [hp, hq] at h
          simp at h
          have h1 := jsNumber_nonneg hp
          have h2 := jsNumber_nonneg hq
          omega

theorem hasBeenPlayed_min_eq (R : List PlaybackRecord) (today : Nat) (i : String)
    (T m : Int)
    (hm : listMin ((todayRecordsOf R today i).map fun r => r.timingMinutes) = some m) :
    hasBeenPlayed R today i T = decide (T ≥ m) := by
  have htne : todayRecordsOf R today i ≠ [] := by
    intro h0
    rw [h0] at hm
    simp [listMin] at hm
  have hene : entryRecordsOf R i ≠ [] := by
    intro h0
    apply htne
    unfold todayRecordsOf
    rw [h0]
    rfl
  simp only [hasBeenPlayed, hm]
  rw [if_neg (by simpa using hene), if_neg (by simpa using htne)]

theorem hasBeenPlayed_true_elim {R : List PlaybackRecord} {today : Nat} {i : String}
    {u : Int} (h : hasBeenPlayed R today i u = true) :
    ∃ r, r ∈ R ∧ r.entryId = i ∧ r.playedDay = today ∧ r.timingMinutes ≤ u := by
  simp only [hasBeenPlayed] at h
  cases h1 : (entryRecordsOf R i).isEmpty <;> rw [h1] at h
  · cases h2 : (todayRecordsOf R today i).isEmpty <;> rw [h2] at h
    · cases hm : listMin ((todayRecordsOf R today i).map fun r => r.timingMinutes) with
      | none => rw [hm] at h; simp at h
      | some m =>
        rw [hm] at h
        simp only [if_false, Bool.false_eq_true, decide_eq_true_eq, ge_iff_le] at h
        have hmem := listMin_mem hm
        rcases List.mem_map.mp hmem with ⟨r, hr, hrt⟩
        rcases List.mem_filter.mp hr with ⟨hre, hrday⟩
        rcases List.mem_filter.mp hre with ⟨hrR, hrid⟩
        refine ⟨r, hrR, by simpa using hrid, by simpa using hrday, ?_⟩
        rw [hrt]
        exact h
    · simp at h
  · simp at h

theorem entryRecordsOf_save (R : List PlaybackRecord) (rec : PlaybackRecord) :
    entryRecordsOf (savePlaybackRecord R rec) rec.entryId
      = [⟨rec.entryId, savedTimingFull R rec, rec.playedDay, rec.arrivalTime⟩] := by
  unfold savePlaybackRecord savedTimingFull
  cases h : (entryRecordsOf R rec.entryId).isEmpty
  · rw [if_neg (by simp [h]), if_neg (by simp [h])]
    unfold entryRecordsOf at h ⊢
    rw [List.filter_append, filter_not_pred_self]
    simp
  · rw [if_pos (by simp [h]), if_pos (by simp [h])]
    unfold entryRecordsOf at h ⊢
    rw [List.filter_append]
    rw [List.isEmpty_iff] at h
    rw [h]
    simp

theorem savedTimingFull_le_rec (R : List PlaybackRecord) (rec : PlaybackRecord) :
    savedTimingFull R rec ≤ rec.timingMinutes := by
  unfold savedTimingFull
  split
  · exact le_rfl
  · unfold savedTiming
    cases hm : listMin ((entryRecordsOf R rec.entryId).map fun r => r.timingMinutes) with
    | none => exact le_rfl
    | some m => exact min_le_right _ _

theorem savedTimingFull_le_old (R : List PlaybackRecord) (rec : PlaybackRecord) :
    ∀ r ∈ R, r.entryId = rec.entryId → savedTimingFull R rec ≤ r.timingMinutes := by
  intro r hr hid
  have hre : r ∈ entryRecordsOf R rec.entryId :=
    List.mem_filter.mpr ⟨hr, by simp [hid]⟩
  have hne : entryRecordsOf R rec.entryId ≠ [] := List.ne_nil_of_mem hre
  unfold savedTimingFull
  rw [if_neg (by simpa using hne)]
  unfold savedTiming
  rcases listMin_isSome (l := (entryRecordsOf R rec.entryId).map fun r => r.timingMinutes)
      (by simpa using hne) with ⟨m, hm⟩
  rw [hm]
  calc min m rec.timingMinutes ≤ m := min_le_left _ _
    _ ≤ r.timingMinutes := listMin_le hm _ (List.mem_map.mpr ⟨r, hre, rfl⟩)

theorem hasBeenPlayed_save (R : List PlaybackRecord) (rec : PlaybackRecord) (u : Int) :
    hasBeenPlayed (savePlaybackRecord R rec) rec.playedDay rec.entryId u
      = decide (u ≥ savedTimingFull R rec) := by
  apply hasBeenPlayed_min_eq
  unfold todayRecordsOf
  rw [entryRecordsOf_save]
  simp [listMin]

theorem firstUnplayed_eq_none_iff (R : List PlaybackRecord) (today : Nat) (i : String) :
    ∀ l, firstUnplayed R today i l = none
      ↔ ∀ t ∈ l, hasBeenPlayed R today i t = true := by
  intro l
  induction l with
  | nil => simp [firstUnplayed]
  | cons t ts ih =>
    simp only [firstUnplayed]
    cases h : hasBeenPlayed R today i t
    · simp [h]
    · simp [h, ih]

theorem firstUnplayed_some_spec (R : List PlaybackRecord) (today : Nat) (i : String) :
    ∀ l, List.Sorted (fun a b : Int => a ≤ b) l → ∀ t,
      firstUnplayed R today i l = some t →
      t ∈ l ∧ hasBeenPlayed R today i t = false
        ∧ ∀ u ∈ l, u < t → hasBeenPlayed R today i u = true := by
  intro l
  induction l with
  | nil =>
    intro _ t h
    simp [firstUnplayed] at h
  | cons a ts ih =>
    intro hs t h
    have hs' := List.sorted_cons.mp hs
    simp only [firstUnplayed] at h
    cases hp : hasBeenPlayed R today i a <;> rw [hp] at h <;> simp at h
    · subst h
      refine ⟨List.mem_cons_self _ _, hp, ?_⟩
      intro u hu hut
      rcases List.mem_cons.mp hu with rfl | hu'
      · exact absurd hut (lt_irrefl _)
      · exact absurd hut (not_lt.mpr (hs'.1 u hu'))
    · rcases ih hs'.2 t h with ⟨h1, h2, h3⟩
      refine ⟨List.mem_cons_of_mem _ h1, h2, ?_⟩
      intro u hu hut
      rcases List.mem_cons.mp hu with rfl | hu'
      · exact hp
      · exact h3 u hu' hut

theorem sortTimings_sorted (l : List Int) :
    List.Sorted (fun a b : Int => a ≤ b) (sortTimings l) :=
  List.sorted_insertionSort _ l

theorem sortTimings_mem (l : List Int) (x : Int) : x ∈ sortTimings l ↔ x ∈ l := by
  unfold sortTimings
  exact List.mem_insertionSort _

theorem detectCandidate_eq (R : List PlaybackRecord) (today : Nat) (timings : List Int)
    (cur : Int) (e : NormalizedEntry) (i s : String) (a : Int)
    (hid : e.entry.id = some i) (hat : e.entry.arrivalTime = some s)
    (hdt : e.arrivalDatetime = Jsv.num a) (ha : a ≠ 0)
    (hfin : jsGTO cur (rolledFinish cur e.entry a) = false) :
    detectCandidate R today timings cur e
      = if (dueTimings timings cur a).isEmpty then none
        else firstUnplayed R today i (sortTimings (dueTimings timings cur a)) := by
  rcases e with ⟨ent, dt⟩
  rcases ent with ⟨eid, eat, eft, eord, esup⟩
  simp only at hid hat hdt hfin
  subst hid hat hdt
  have ha' : (a == 0) = false := by simpa using ha
  simp only [detectCandidate, ha', hfin, Bool.false_eq_true, if_false]

/-- C1: for every selected entry in one detection cycle the detector
emits at most one candidate: its result (an `Option`) is `none` exactly
when every due timing is already satisfied in the ledger (in particular
when the due set is empty), and a returned candidate `t` is a due
timing, unsatisfied, and minimal in the ascending order — every
strictly smaller due timing is already satisfied. -/
theorem thresholdDetector_at_most_one_candidate (R : List PlaybackRecord) (today : Nat)
    (timings : List Int) (cur : Int) (e : NormalizedEntry) (i s : String) (a : Int)
    (hid : e.entry.id = some i) (hat : e.entry.arrivalTime = some s)
    (hdt : e.arrivalDatetime = Jsv.num a) (ha : a ≠ 0)
    (hfin : jsGTO cur (rolledFinish cur e.entry a) = false) :
    ((detectCandidate R today timings cur e = none)
       ↔ ∀ u ∈ dueTimings timings cur a, hasBeenPlayed R today i u = true)
    ∧ ∀ t, detectCandidate R today timings cur e = some t →
        t ∈ dueTimings timings cur a ∧ hasBeenPlayed R today i t = false
          ∧ ∀ u ∈ dueTimings timings cur a, u < t → hasBeenPlayed R today i u = true := by
  rw [detectCandidate_eq R today timings cur e i s a hid hat hdt ha hfin]
  by_cases hemp : (dueTimings timings cur a).isEmpty = true
  · have hnil := List.isEmpty_iff.mp hemp
    rw [if_pos hemp, hnil]
    simp
  · rw [if_neg hemp]
    constructor
    · rw [firstUnplayed_eq_none_iff]
      constructor
      · intro h u hu
        exact h u ((sortTimings_mem _ _).mpr hu)
      · intro h u hu
        exact h u ((sortTimings_mem _ _).mp hu)
    · intro t h
      have hspec := firstUnplayed_some_spec R today i _ (sortTimings_sorted _) t h
      refine ⟨(sortTimings_mem _ _).mp hspec.1, hspec.2.1, ?_⟩
      intro u hu hut
      exact hspec.2.2 u ((sortTimings_mem _ _).mpr hu) hut

/-- Witness for C1: the entry arriving at minute 600 with timings
`[10, 5, 0]`, all due and none played, yields exactly the single
candidate `0`, and the instantiated characterization holds. -/
theorem thresholdDetector_at_most_one_candidate_witness :
    detectCandidate [] 0 [10, 5, 0] 600 eDet = some 0
    ∧ ((detectCandidate [] 0 [10, 5, 0] 600 eDet = none)
        ↔ ∀ u ∈ dueTimings [10, 5, 0] 600 600, hasBeenPlayed [] 0 "e1" u = true) :=
  ⟨by decide,
    (thresholdDetector_at_most_one_candidate [] 0 [10, 5, 0] 600 eDet "e1" "10:00" 600
      rfl rfl rfl (by decide) (by decide)).1⟩

/-- C2: for an entry with at least one playback record from today,
`hasBeenPlayed` returns true exactly when the queried timing is at least
the smallest timing recorded today for that entry. -/
theorem ledger_monotonic_consumption (R : List PlaybackRecord) (today : Nat)
    (i : String) (T m : Int)
    (hm : listMin ((todayRecordsOf R today i).map fun r => r.timingMinutes) = some m) :
    hasBeenPlayed R today i T = decide (T ≥ m) :=
  hasBeenPlayed_min_eq R today i T m hm

/-- Witness for C2: with threshold `0` recorded as played today for
entry `e1`, querying threshold `30` returns true. -/
theorem ledger_monotonic_consumption_witness :
    hasBeenPlayed recsW 5 "e1" 30 = true :=
  (ledger_monotonic_consumption recsW 5 "e1" 30 0 (by decide)).trans (by decide)

/-- C4: after a detection cycle completes — the selected candidate `t`
is committed to the ledger by `savePlaybackRecord` — re-running the
identical detection with the same current time yields no candidate for
that entry (hence no further ledger write happens for it). -/
theorem detection_idempotent_after_commit (R : List PlaybackRecord) (today : Nat)
    (timings : List Int) (cur : Int) (e : NormalizedEntry) (i s arr : String)
    (a t : Int)
    (hid : e.entry.id = some i) (hat : e.entry.arrivalTime = some s)
    (hdt : e.arrivalDatetime = Jsv.num a) (ha : a ≠ 0)
    (hfin : jsGTO cur (rolledFinish cur e.entry a) = false)
    (hdet : detectCandidate R today timings cur e = some t) :
    detectCandidate (savePlaybackRecord R ⟨i, t, today, arr⟩) today timings cur e = none := by
  rw [detectCandidate_eq R today timings cur e i s a hid hat hdt ha hfin] at hdet
  by_cases hemp : (dueTimings timings cur a).isEmpty = true
  · rw [if_pos hemp] at hdet
    exact absurd hdet (by simp)
  · rw [if_neg hemp] at hdet
    have hspec := firstUnplayed_some_spec R today i _ (sortTimings_sorted _) t hdet
    rw [detectCandidate_eq (savePlaybackRecord R ⟨i, t, today, arr⟩) today timings cur e
      i s a hid hat hdt ha hfin]
    rw [if_neg hemp, firstUnplayed_eq_none_iff]
    intro u hu
    rw [show hasBeenPlayed (savePlaybackRecord R ⟨i, t, today, arr⟩) today i u
        = decide (u ≥ savedTimingFull R ⟨i, t, today, arr⟩)
      from hasBeenPlayed_save R ⟨i, t, today, arr⟩ u]
    rw [decide_eq_true_eq]
    by_cases hup : hasBeenPlayed R today i u = true
    · rcases hasBeenPlayed_true_elim hup with ⟨r, hrR, hrid, _, hrle⟩
      have hle := savedTimingFull_le_old R ⟨i, t, today, arr⟩ r hrR hrid
      exact le_trans hle hrle
    · have hnlt : ¬(u < t) := fun hul => hup (hspec.2.2 u hu hul)
      have hle : savedTimingFull R ⟨i, t, today, arr⟩ ≤ t :=
        savedTimingFull_le_rec R ⟨i, t, today, arr⟩
      exact le_trans hle (not_lt.mp hnlt)

/-- Witness for C4: with timings `[30, 0]` at minute 570 the entry
arriving at 600 yields candidate `30`; after committing `30` to the
ledger the re-run detection yields no candidate. -/
theorem detection_idempotent_after_commit_witness :
    detectCandidate [] 0 [30, 0] 570 eDet = some 30
    ∧ detectCandidate (savePlaybackRecord [] ⟨"e1", 30, 0, "10:00"⟩) 0 [30, 0] 570 eDet
        = none :=
  ⟨by decide,
    detection_idempotent_after_commit [] 0 [30, 0] 570 eDet "e1" "10:00" "10:00" 600 30
      rfl rfl rfl (by decide) (by decide) (by decide)⟩

/-- C3: for an entry with a parseable arrival time and a finish minute
(parsed, or arrival + 5 when the finish time is absent), the normalizer
sets the arrival instant to arrival + 1440 exactly when the finish
minute is strictly before the current minute, and to the plain arrival
minute otherwise; the entry is kept in the normalizer's output. -/
theorem normalizer_day_roll (es : List ScheduleEntry) (cur : Int) (e : ScheduleEntry)
    (s : String) (a ft : Int)
    (he : e ∈ es) (hs : e.arrivalTime = some s) (ha : jsTimeToMinutes s = some a)
    (hf : finishOrDefault e a = some ft) :
    (normalizeEntry cur e).arrivalDatetime
      = Jsv.num (if ft < cur then a + 24 * 60 else a)
    ∧ normalizeEntry cur e ∈ normalizeEntries es cur := by
  have hval : (normalizeEntry cur e).arrivalDatetime
      = Jsv.num (if ft < cur then a + 24 * 60 else a) := by
    rcases e with ⟨eid, eat, eft, eord, esup⟩
    simp only at hs hf
    subst hs
    simp only [normalizeEntry, ha, hf]
    by_cases hlt : ft < cur <;> simp [hlt]
  refine ⟨hval, List.mem_filter.mpr ⟨List.mem_map.mpr ⟨e, he, rfl⟩, by simp [hval]⟩⟩

/-- Witness for C3: arrival 00:10 with finish 00:15 evaluated at minute
1430 (23:50) yields arrival instant 10 + 1440 = 1450, and the entry
stays in the output. -/
theorem normalizer_day_roll_witness :
    (normalizeEntry 1430 eRoll).arrivalDatetime = Jsv.num 1450
    ∧ normalizeEntry 1430 eRoll ∈ normalizeEntries [eRoll] 1430 := by
  have h := normalizer_day_roll [eRoll] 1430 eRoll "00:10" 10 15 (by decide) rfl
    (by decide) (by decide)
  exact ⟨h.1.trans (by decide), h.2⟩

/-- C7 counterexample: the in-progress entry with arrival 10:00 and
finish 10:30, evaluated at minute 615 (10:15) with a 30-minute window,
survives normalization and display selection with arrival instant
600 < 615, and is not excluded as departed. -/
theorem survivor_before_arrival_cex :
    pickDisplayEntries (sortEntries (normalizeEntries [eProg] 615)) 615 30 2
      = [⟨eProg, Jsv.num 600⟩]
    ∧ ¬((615 : Int) ≤ 600) := ⟨by decide, by decide⟩

/-- C7 amended: a surviving entry may have its arrival instant strictly
before the current minute; when it does (with the current minute below
1440, as wall-clock minutes are), its finish-or-default minute has not
yet passed — the entry is in progress, not departed. -/
theorem survivor_window_invariant (es : List ScheduleEntry) (cur before : Int)
    (limit : Nat) (ne : NormalizedEntry) (a : Int)
    (hcur : cur < 1440)
    (hmem : ne ∈ pickDisplayEntries (sortEntries (normalizeEntries es cur)) cur before limit)
    (hdt : ne.arrivalDatetime = Jsv.num a) (hlt : a < cur) :
    ∀ ft, finishOrDefault ne.entry a = some ft → cur ≤ ft := by
  have h1 := List.take_subset _ _ hmem
  have h2 : ne ∈ sortEntries (normalizeEntries es cur) := (List.mem_filter.mp h1).1
  have h3 : ne ∈ normalizeEntries es cur := by
    unfold sortEntries at h2
    exact (List.mem_insertionSort _).mp h2
  rcases List.mem_filter.mp h3 with ⟨h4, _⟩
  rcases List.mem_map.mp h4 with ⟨e, heES, heq⟩
  subst heq
  rcases e with ⟨eid, eat, eft, eord, esup⟩
  cases eat with
  | none => simp [normalizeEntry] at hdt
  | some s =>
    cases hts : jsTimeToMinutes s with
    | none => simp [normalizeEntry, hts] at hdt
    | some a0 =>
      have h0 : 0 ≤ a0 := jsTimeToMinutes_nonneg hts
      simp only [normalizeEntry, hts] at hdt ⊢
      cases hfd : finishOrDefault ⟨eid, some s, eft, eord, esup⟩ a0 with
      | none =>
        rw [hfd] at hdt
        simp at hdt
        subst hdt
        intro ft hft
        rw [hfd] at hft
        exact absurd hft (by simp)
      | some ft0 =>
        rw [hfd] at hdt
        by_cases hroll : ft0 < cur
        · simp [hroll] at hdt
          omega
        · simp [hroll] at hdt
          subst hdt
          intro ft hft
          rw [hfd] at hft
          have : ft0 = ft := by simpa using hft
          subst this
          exact not_lt.mp hroll

/-- Witness for C7 amended: the surviving in-progress entry of the
counterexample scenario has finish minute 630, not yet passed at 615. -/
theorem survivor_window_invariant_witness :
    finishOrDefault eProg 600 = some 630 ∧ (615 : Int) ≤ 630 :=
  ⟨by decide,
    survivor_window_invariant [eProg] 615 30 2 ⟨eProg, Jsv.num 600⟩ 600 (by decide)
      (by decide) rfl (by decide) 630 (by decide)⟩

/-- C8 counterexample: an entry whose arrival time is the nonempty
unparseable string "xx" is not dropped by the normalizer — it stays in
the output with a NaN arrival instant. -/
theorem unparseable_arrival_kept_cex :
    normalizeEntries [eBad] 600 = [⟨eBad, Jsv.nan⟩]
    ∧ eBad.arrivalTime = some "xx" ∧ jsTimeToMinutes "xx" = none := by decide

/-- C8 amended: the normalizer drops exactly the entries with a missing
(falsy) arrival time — those normalize to a `null` instant and every
output entry is non-`null` —; an entry with a nonempty unparseable
arrival time is kept with a NaN instant, and such NaN entries are
excluded later by the display selector. -/
theorem normalizer_drop_semantics :
    (∀ (cur : Int) (e : ScheduleEntry), e.arrivalTime = none →
        (normalizeEntry cur e).arrivalDatetime = Jsv.null)
    ∧ (∀ (es : List ScheduleEntry) (cur : Int) (ne : NormalizedEntry),
        ne ∈ normalizeEntries es cur → ne.arrivalDatetime ≠ Jsv.null)
    ∧ (∀ (es : List ScheduleEntry) (cur : Int) (e : ScheduleEntry) (s : String),
        e ∈ es → e.arrivalTime = some s → jsTimeToMinutes s = none →
        normalizeEntry cur e ∈ normalizeEntries es cur
          ∧ (normalizeEntry cur e).arrivalDatetime = Jsv.nan)
    ∧ (∀ (l : List NormalizedEntry) (cur before : Int) (limit : Nat)
        (ne : NormalizedEntry), ne.arrivalDatetime = Jsv.nan →
        ne ∉ pickDisplayEntries l cur before limit) := by
  refine ⟨?_, ?_, ?_, ?_⟩
  · intro cur e h
    rcases e with ⟨eid, eat, eft, eord, esup⟩
    simp only at h
    subst h
    simp [normalizeEntry]
  · intro es cur ne h
    rcases List.mem_filter.mp h with ⟨_, hp⟩
    simpa using hp
  · intro es cur e s hmem hs hts
    have hval : (normalizeEntry cur e).arrivalDatetime = Jsv.nan := by
      rcases e with ⟨eid, eat, eft, eord, esup⟩
      simp only at hs
      subst hs
      simp [normalizeEntry, hts]
    exact ⟨List.mem_filter.mpr ⟨List.mem_map.mpr ⟨e, hmem, rfl⟩, by simp [hval]⟩, hval⟩
  · intro l cur before limit ne hnan hmem
    have h1 := List.take_subset _ _ hmem
    rcases List.mem_filter.mp h1 with ⟨_, hp⟩
    rw [hnan] at hp
    simp at hp

/-- Witness for C8 amended: the missing-arrival entry normalizes to
`null`; the entry with arrival "xx" is kept with a NaN instant and is
excluded by the display selector. -/
theorem normalizer_drop_semantics_witness :
    (normalizeEntry 600 eNoArr).arrivalDatetime = Jsv.null
    ∧ (normalizeEntry 600 eBad ∈ normalizeEntries [eBad] 600
        ∧ (normalizeEntry 600 eBad).arrivalDatetime = Jsv.nan)
    ∧ (⟨eBad, Jsv.nan⟩ : NormalizedEntry) ∉ pickDisplayEntries [⟨eBad, Jsv.nan⟩] 600 30 2 :=
  ⟨normalizer_drop_semantics.1 600 eNoArr rfl,
   normalizer_drop_semantics.2.2.1 [eBad] 600 eBad "xx" (by decide) rfl (by decide),
   normalizer_drop_semantics.2.2.2 [⟨eBad, Jsv.nan⟩] 600 30 2 ⟨eBad, Jsv.nan⟩ rfl⟩

/-- C10: an entry whose normalized arrival instant is exactly `0` is
excluded from the display list regardless of the look-ahead window, and
the audio enqueue path emits no candidate for it — the zero instant is
treated the same as a missing value by the falsy checks. -/
theorem zero_arrival_instant_excluded :
    (∀ (l : List NormalizedEntry) (cur before : Int) (limit : Nat)
        (ne : NormalizedEntry), ne.arrivalDatetime = Jsv.num 0 →
        ne ∉ pickDisplayEntries l cur before limit)
    ∧ (∀ (R : List PlaybackRecord) (today : Nat) (timings : List Int) (cur : Int)
        (e : NormalizedEntry), e.arrivalDatetime = Jsv.num 0 →
        detectCandidate R today timings cur e = none) := by
  constructor
  · intro l cur before limit ne h0 hmem
    have h1 := List.take_subset _ _ hmem
    rcases List.mem_filter.mp h1 with ⟨_, hp⟩
    rw [h0] at hp
    simp at hp
  · intro R today timings cur e h0
    rcases e with ⟨⟨eid, eat, eft, eord, esup⟩, dt⟩
    simp only at h0
    subst h0
    cases eid <;> cases eat <;> simp [detectCandidate]

/-- Witness for C10: the zero-instant entry is excluded even with a
huge look-ahead window, and produces no audio candidate. -/
theorem zero_arrival_instant_excluded_witness :
    (⟨eProg, Jsv.num 0⟩ : NormalizedEntry)
        ∉ pickDisplayEntries [⟨eProg, Jsv.num 0⟩] 600 9999 2
    ∧ detectCandidate [] 0 [0] 600 ⟨eProg, Jsv.num 0⟩ = none :=
  ⟨zero_arrival_instant_excluded.1 [⟨eProg, Jsv.num 0⟩] 600 9999 2 ⟨eProg, Jsv.num 0⟩ rfl,
   zero_arrival_instant_excluded.2 [] 0 [0] 600 ⟨eProg, Jsv.num 0⟩ rfl⟩

/-- C5 counterexample: after `itemA`'s playback fails, no ledger record
exists (that part of the claim holds), but re-enqueueing the same entry
is silently rejected — the state is unchanged — and even a later
processing pass with working audio never plays or records it, contrary
to the claimed re-attempt on the next cycle. -/
theorem playback_failure_retry_cex :
    stFail.ledger = []
    ∧ addToGlobalAudioQueue stFail itemA = stFail
    ∧ (processGlobalAudioQueue 0 (fun _ => true)
        (addToGlobalAudioQueue stFail itemA)).ledger = [] :=
  ⟨by decide, by decide, by decide⟩

/-- C5 amended: when playback of an item fails, no ledger record is
written for it and the drain continues with the remaining queued items;
however `startPlayback` has already added the entry id to the in-memory
played set before the failure, so a re-enqueue of the same entry is
rejected (state unchanged) for the rest of the session instead of being
re-attempted. -/
theorem playback_failure_no_retry :
    (∀ (st : EngineState) (item : QueueItem) (today : Nat),
        (playGlobalAudio st item today false).ledger = st.ledger)
    ∧ (∀ (today : Nat) (audioOutcome : String → Bool) (item : QueueItem)
        (rest : List QueueItem) (st : EngineState),
        audioOutcome item.entryId = false →
        st.playedEntries.contains item.entryId = false →
        drainQueue today audioOutcome (item :: rest) st
          = drainQueue today audioOutcome rest (startPlaybackEff st item))
    ∧ (∀ (st : EngineState) (item : QueueItem) (today : Nat) (b : Bool),
        (playGlobalAudio st item today b).playedEntries.contains item.entryId = true)
    ∧ (∀ (st : EngineState) (item : QueueItem),
        st.playedEntries.contains item.entryId = true →
        addToGlobalAudioQueue st item = st) := by
  refine ⟨?_, ?_, ?_, ?_⟩
  · intro st item today
    rfl
  · intro today audioOutcome item rest st hok hpl
    simp only [drainQueue, hpl, hok, Bool.false_eq_true, if_false]
    rfl
  · intro st item today b
    cases b <;> simp [playGlobalAudio, startPlaybackEff]
  · intro st item h
    unfold addToGlobalAudioQueue
    simp only [h, if_true]

/-- Witness for C5 amended: the four conjuncts instantiated on the
concrete failing scenario of the counterexample. -/
theorem playback_failure_no_retry_witness :
    (playGlobalAudio st0 itemA 0 false).ledger = st0.ledger
    ∧ drainQueue 0 (fun _ => false) [itemA] st0
        = drainQueue 0 (fun _ => false) [] (startPlaybackEff st0 itemA)
    ∧ (playGlobalAudio st0 itemA 0 false).playedEntries.contains itemA.entryId = true
    ∧ addToGlobalAudioQueue (startPlaybackEff st0 itemA) itemA
        = startPlaybackEff st0 itemA :=
  ⟨playback_failure_no_retry.1 st0 itemA 0,
   playback_failure_no_retry.2.1 0 (fun _ => false) itemA [] st0 rfl (by decide),
   playback_failure_no_retry.2.2.1 st0 itemA 0 false,
   playback_failure_no_retry.2.2.2 (startPlaybackEff st0 itemA) itemA (by decide)⟩

/-- C6 counterexample: two queue items from different feeds (monitor
"2" and monitor "3"), agreeing on arrival instant and slot priority and
carrying no left/right flag, receive identical priority keys — the
claimed feed-identity tie-break does not separate them. -/
theorem priority_key_collision_cex :
    getGlobalAudioPriority itemA = getGlobalAudioPriority itemB
    ∧ itemA.monitorId ≠ itemB.monitorId ∧ itemA.entryId ≠ itemB.entryId := by decide

theorem key_weights_inj (a b s t d e : Int) (hs : s = 0 ∨ s = 1) (ht : t = 0 ∨ t = 1)
    (hd : d = 0 ∨ d = 1) (he : e = 0 ∨ e = 1)
    (h : a * 1000000 + s * 10000 + d * 100 = b * 1000000 + t * 10000 + e * 100) :
    a = b ∧ s = t ∧ d = e := by
  rcases hs with rfl | rfl <;> rcases ht with rfl | rfl <;> rcases hd with rfl | rfl <;>
    rcases he with rfl | rfl <;> exact ⟨by omega, by omega, by omega⟩

theorem sideBit_bound (x : QueueItem) : sideBit x = 0 ∨ sideBit x = 1 := by
  unfold sideBit
  cases x.isLeftSide with
  | none => cases h : x.monitorId == "1" <;> simp [h]
  | some b => cases b <;> simp

/-- C6 amended: the priority key is determined by, and determines,
exactly the triple (arrival instant with falsy values collapsed to 0,
main-slot flag, side bit). It therefore orders the queue totally by
these three components, but it is not injective across feeds: the side
bit only distinguishes a left flag or monitor id "1", so items from
different feeds agreeing on the triple always collide. -/
theorem priority_key_characterization (x y : QueueItem) :
    getGlobalAudioPriority x = getGlobalAudioPriority y
      ↔ (jsOr0 x.arrivalDatetime = jsOr0 y.arrivalDatetime
          ∧ x.isMainEntry = y.isMainEntry ∧ sideBit x = sideBit y) := by
  constructor
  · intro h
    unfold getGlobalAudioPriority at h
    have hmx : (if x.isMainEntry then (0 : Int) else 1) = 0
        ∨ (if x.isMainEntry then (0 : Int) else 1) = 1 := by
      cases x.isMainEntry <;> simp
    have hmy : (if y.isMainEntry then (0 : Int) else 1) = 0
        ∨ (if y.isMainEntry then (0 : Int) else 1) = 1 := by
      cases y.isMainEntry <;> simp
    obtain ⟨ha, hm, hd⟩ := key_weights_inj _ _ _ _ _ _ hmx hmy
      (sideBit_bound x) (sideBit_bound y) h
    refine ⟨ha, ?_, hd⟩
    cases hbx : x.isMainEntry <;> cases hby : y.isMainEntry <;>
      rw [hbx, hby] at hm <;> simp at hm ⊢
  · intro ⟨h1, h2, h3⟩
    unfold getGlobalAudioPriority
    rw [h1, h2, h3]

/-- C9: the claim that the ledger read side never propagates an
exception is right as a requirement, but the code violates it: a
well-formed stored blob whose array contains the malformed record
`null` makes `hasBeenPlayed` throw a TypeError (reading `.entryId` of
`null`) that escapes to the caller. Unparseable JSON (a parse
exception) and an absent blob are, as required, treated as an empty
ledger. -/
theorem ledger_read_throws_on_malformed_record :
    hasBeenPlayedJs (some (Except.ok (JsonVal.jarr [JsonVal.jnull])))
        (fun _ => "d") "d" "e1" 30 = Except.error ()
    ∧ hasBeenPlayedJs (some (Except.error ())) (fun _ => "d") "d" "e1" 30
        = Except.ok false
    ∧ hasBeenPlayedJs none (fun _ => "d") "d" "e1" 30 = Except.ok false :=
  ⟨rfl, rfl, rfl⟩

/-- Witness for C6 amended: the characterization instantiated on the
two colliding items of the counterexample. -/
theorem priority_key_characterization_witness :
    getGlobalAudioPriority itemA = getGlobalAudioPriority itemB
      ↔ (jsOr0 itemA.arrivalDatetime = jsOr0 itemB.arrivalDatetime
          ∧ itemA.isMainEntry = itemB.isMainEntry ∧ sideBit itemA = sideBit itemB) :=
  priority_key_characterization itemA itemB
